import Mathlib

/-!
Verification of the `session-reflect` hook binary
(`src/bin/session-reflect.rs`).

The development shallowly embeds the program: JSON values are an inductive
type, Rust string primitives (`str::lines`, `trim`, `starts_with`,
`contains`, `join`) are executable Lean functions over character lists,
the serde-derived decoding of `HookInput` is an explicit partial parser,
and the whole `main` pipeline is the function `runHook` over an
environment record describing the external world (stdin, `HOME`, the
filesystem, and the per-line JSON parser used on the transcript).
-/

/-- JSON values, the shallow counterpart of `serde_json::Value`.
Objects are association lists; field lookup returns the first binding. -/
inductive Json where
  | null
  | bool (b : Bool)
  | num (n : Int)
  | str (s : String)
  | arr (items : List Json)
  | obj (fields : List (String × Json))

/-- First binding of a key in an object's field list. -/
def lookupField : List (String × Json) → String → Option Json
  | [], _ => none
  | (k, v) :: rest, key => if k = key then some v else lookupField rest key

/-- Rust `Value::get` on objects; `none` on any non-object. -/
def Json.get : Json → String → Option Json
  | Json.obj fields, key => lookupField fields key
  | _, _ => none

/-- Rust `Value::as_str`. -/
def Json.asStr : Json → Option String
  | Json.str s => some s
  | _ => none

/-- Rust `Value::as_array`. -/
def Json.asArr : Json → Option (List Json)
  | Json.arr items => some items
  | _ => none

/-! ## Rust string primitives over `List Char` -/

/-- Whitespace as recognized by `str::trim` (ASCII fragment). -/
def wsChar (c : Char) : Bool := c == ' ' || c == '\t' || c == '\n' || c == '\r'

/-- Trim trailing, then leading whitespace characters. -/
def trimChars (l : List Char) : List Char :=
  ((l.reverse.dropWhile wsChar).reverse).dropWhile wsChar

/-- Rust `str::trim`. -/
def rTrim (s : String) : String := String.mk (trimChars s.data)

/-- Is `pat` a prefix of `l`? -/
def listIsPre : List Char → List Char → Bool
  | [], _ => true
  | _ :: _, [] => false
  | a :: as, b :: bs => a == b && listIsPre as bs

/-- Rust `str::starts_with`. -/
def rStarts (s pat : String) : Bool := listIsPre pat.data s.data

/-- Is `pat` a contiguous substring of the second argument? -/
def listSub (pat : List Char) : List Char → Bool
  | [] => listIsPre pat []
  | l@(_ :: t) => listIsPre pat l || listSub pat t

/-- Rust `str::contains` (substring containment). -/
def strContains (s pat : String) : Bool := listSub pat.data s.data

/-- Split on `'\n'`, keeping every (possibly empty) field. -/
def splitNl : List Char → List (List Char)
  | [] => [[]]
  | c :: cs =>
    if c = '\n' then [] :: splitNl cs
    else
      match splitNl cs with
      | [] => [[c]]
      | f :: rest => (c :: f) :: rest

/-- Strip one trailing `'\r'` if present (carriage return of a `\r\n`). -/
def dropCr (l : List Char) : List Char :=
  match l.reverse with
  | c :: rest => if c = '\r' then rest.reverse else l
  | [] => l

/-- Post-process the raw `'\n'` fields the way `str::lines` does: every
field but the last was newline-terminated, so it loses a trailing `'\r'`;
the final field is dropped when empty (the final line ending is optional)
and otherwise kept verbatim. -/
def finishLines : List (List Char) → List (List Char)
  | [] => []
  | [l] => if l = [] then [] else [l]
  | l :: ls => dropCr l :: finishLines ls

/-- Rust `str::lines`. -/
def rustLines (s : String) : List String :=
  (finishLines (splitNl s.data)).map String.mk

/-- Join fields with `'\n'` separators. -/
def joinNl : List (List Char) → List Char
  | [] => []
  | [l] => l
  | l :: ls => l ++ '\n' :: joinNl ls

/-- Rust `Vec::join` with a newline separator. -/
def rJoin (ls : List String) : String := String.mk (joinNl (ls.map String.data))

/-! ## The input payload and its serde decoding -/

/-- The combined Stop / PreCompact payload (struct `HookInput`). -/
structure HookInput where
  stop_hook_active : Bool
  cwd : String
  transcript_path : String
  trigger : Option String
  deriving DecidableEq

/-- serde decoding of a `#[serde(default)] bool` field: missing means
`false`; a present non-boolean value fails the whole parse. -/
def parseBoolField (j : Json) (k : String) : Option Bool :=
  match j.get k with
  | none => some false
  | some (Json.bool b) => some b
  | some _ => none

/-- serde decoding of a `#[serde(default)] String` field. -/
def parseStrField (j : Json) (k : String) : Option String :=
  match j.get k with
  | none => some ""
  | some (Json.str s) => some s
  | some _ => none

/-- serde decoding of an `Option<String>` field: missing and `null` both
decode to `none`; any other non-string value fails the whole parse. -/
def parseOptStrField (j : Json) (k : String) : Option (Option String) :=
  match j.get k with
  | none => some none
  | some Json.null => some none
  | some (Json.str s) => some (some s)
  | some _ => none

/-- Decoding `serde_json::from_str::<HookInput>` after the textual JSON parse:
the payload must be an object, unknown fields are ignored. -/
def parseHookInput (j : Json) : Option HookInput :=
  match j with
  | Json.obj _ =>
    match parseBoolField j "stop_hook_active", parseStrField j "cwd",
          parseStrField j "transcript_path", parseOptStrField j "trigger" with
    | some sha, some cwd, some tp, some tr => some ⟨sha, cwd, tp, tr⟩
    | _, _, _, _ => none
  | _ => none

/-- Rust `input.trigger.is_some()`: the event-kind disambiguator. -/
def is_pre_compact (input : HookInput) : Bool := input.trigger.isSome

/-! ## Policy constants -/

def TOOL_TURN_THRESHOLD : Nat := 10
def USER_MSG_THRESHOLD : Nat := 4

def FALLBACK_REASON : String :=
  "Substantial session with no learnings captured. Create a file in Memory/Learnings/ or Memory/Decisions/ before ending."

/-- The fixed instructional text prepended on the compaction path
(source constant `PRECOMPACT_PREFIX`). -/
def PRECOMPACT_HEADER : String :=
  "BEFORE COMPACTING — capture session learnings and decisions now. "

def MEMORY_PATHS : List String := ["Memory/Learnings/", "Memory/Decisions/"]

/-! ## Transcript analysis -/

structure AnalysisResult where
  user_messages : Nat
  tool_using_turns : Nat
  has_memory_write : Bool
  deriving DecidableEq

/-- Rust `entry.get("type").and_then(as_str).unwrap_or("")`. -/
def entryTypeStr (e : Json) : String := ((e.get "type").bind Json.asStr).getD ""

/-- Rust `entry.get("message").and_then(get "content").and_then(as_array)`. -/
def contentArr (e : Json) : Option (List Json) :=
  ((e.get "message").bind (fun m => m.get "content")).bind Json.asArr

/-- Rust `item.get("type").and_then(as_str)`. -/
def itemTypeStr (item : Json) : Option String := (item.get "type").bind Json.asStr

/-- Rust `item.get("name").and_then(as_str).unwrap_or("")`. -/
def toolNameStr (item : Json) : String := ((item.get "name").bind Json.asStr).getD ""

/-- Rust `item.get("input").and_then(get "file_path").and_then(as_str).unwrap_or("")`. -/
def filePathStr (item : Json) : String :=
  (((item.get "input").bind (fun i => i.get "file_path")).bind Json.asStr).getD ""

/-- The inner loop over one assistant entry's content items, carrying the
per-turn `turn_has_tool_use` flag and the global `has_memory_write` flag. -/
def scanItems : List Json → Bool → Bool → Bool × Bool
  | [], tu, mw => (tu, mw)
  | item :: rest, tu, mw =>
    match itemTypeStr item with
    | none => scanItems rest tu mw
    | some t =>
      if t ≠ "tool_use" then scanItems rest tu mw
      else if toolNameStr item ≠ "Edit" ∧ toolNameStr item ≠ "Write" then
        scanItems rest true mw
      else
        scanItems rest true
          (mw || MEMORY_PATHS.any (fun p => strContains (filePathStr item) p))

/-- The line loop of `analyze_transcript`, over per-line parse results. -/
def analyzeLoop : List (Option Json) → Nat → Nat → Bool → AnalysisResult
  | [], u, t, m => ⟨u, t, m⟩
  | e :: rest, u, t, m =>
    match e with
    | none => analyzeLoop rest u t m
    | some entry =>
      if entryTypeStr entry = "human" then analyzeLoop rest (u + 1) t m
      else if entryTypeStr entry ≠ "assistant" then analyzeLoop rest u t m
      else
        match contentArr entry with
        | none => analyzeLoop rest u t m
        | some items =>
          let r := scanItems items false m
          if r.1 then analyzeLoop rest u (t + 1) r.2
          else analyzeLoop rest u t r.2

/-- Function `analyze_transcript`: split the transcript text into lines, parse each
line with the external JSON parser, and run the scan. -/
def analyze_transcript (parseJson : String → Option Json) (transcript : String) :
    AnalysisResult :=
  analyzeLoop ((rustLines transcript).map parseJson) 0 0 false

/-! ## Prompt loading and sanitization -/

/-- The loop of `strip_frontmatter_and_h1` over the remaining lines, with
state `in_frontmatter`, `frontmatter_done`, `h1_removed` and the (reversed)
accumulated result lines. -/
def stripLoop : List String → Bool → Bool → Bool → List String → List String
  | [], _, _, _, result => result.reverse
  | line :: rest, inFm, fmDone, h1Removed, result =>
    if inFm then
      if rTrim line = "---" then stripLoop rest false true h1Removed result
      else stripLoop rest inFm fmDone h1Removed result
    else if fmDone && !h1Removed && rStarts line "# " then
      stripLoop rest inFm fmDone true result
    else stripLoop rest inFm fmDone h1Removed (line :: result)

/-- Function `strip_frontmatter_and_h1`: drop a leading `---`-delimited frontmatter
block, drop the first H1 line thereafter, keep everything else. -/
def strip_frontmatter_and_h1 (content : String) : String :=
  match rustLines content with
  | [] => rJoin []
  | first :: rest =>
    if rTrim first = "---" then rJoin (stripLoop rest true false false [])
    else if rStarts first "# " then rJoin (stripLoop rest false true true [])
    else rJoin (stripLoop rest false true false [first])

/-- Rust `Path::join` of the working directory with the fixed pattern subpath. -/
def pattern_path (cwd : String) : String :=
  cwd ++ "/Vaults/Personal/Orchestration/Patterns/Session Reflect.md"

/-- Function `load_reflection_prompt`, with the filesystem abstracted as a partial
map from paths to file contents. -/
def load_reflection_prompt (files : String → Option String) (cwd : String) :
    Option String :=
  match files (pattern_path cwd) with
  | none => none
  | some content =>
    let stripped := strip_frontmatter_and_h1 content
    if rTrim stripped = "" then none else some (rTrim stripped)

/-! ## The main pipeline -/

/-- What the process writes to stdout: nothing, a block decision, or an
injected-context object. -/
inductive Output where
  | silent
  | block (reason : String)
  | inject (additionalContext : String)
  deriving DecidableEq

/-- Observable result of one invocation: stdout content and exit code. -/
structure RunResult where
  out : Output
  exit : Nat
  deriving DecidableEq

/-- The external world of one invocation: stdin (already past the textual
JSON parse; `none` models a read failure or malformed JSON), the `HOME`
variable, the filesystem, and the textual JSON parser applied to each
transcript line. -/
structure Env where
  stdin : Option Json
  home : Option String
  files : String → Option String
  parseJson : String → Option Json

/-- Guard 2: `cwd.starts_with(format!("{}/Data", home))`. -/
def scope_passes (home : Option String) (cwd : String) : Bool :=
  rStarts cwd (home.getD "" ++ "/Data")

/-- The stop-path decision rule applied to the analysis result. -/
def stop_decision (files : String → Option String) (cwd : String)
    (r : AnalysisResult) : Output :=
  if r.user_messages < USER_MSG_THRESHOLD ∨ r.tool_using_turns < TOOL_TURN_THRESHOLD then
    Output.silent
  else if r.has_memory_write then Output.silent
  else Output.block ((load_reflection_prompt files cwd).getD FALLBACK_REASON)

/-- The `main` function. -/
def runHook (env : Env) : RunResult :=
  match env.stdin with
  | none => ⟨Output.silent, 0⟩
  | some j =>
    match parseHookInput j with
    | none => ⟨Output.silent, 0⟩
    | some input =>
      if !(is_pre_compact input) && input.stop_hook_active then ⟨Output.silent, 0⟩
      else if !(scope_passes env.home input.cwd) then ⟨Output.silent, 0⟩
      else if is_pre_compact input then
        ⟨Output.inject (PRECOMPACT_HEADER ++
          ((load_reflection_prompt env.files input.cwd).getD FALLBACK_REASON)), 0⟩
      else
        match env.files input.transcript_path with
        | none => ⟨Output.silent, 0⟩
        | some transcript =>
          ⟨stop_decision env.files input.cwd
            (analyze_transcript env.parseJson transcript), 0⟩

/-! ## Characterization helpers and spec-side predicates -/

/-- Does this content item have `type` string `"tool_use"`?  This is what
flips the per-turn `turn_has_tool_use` flag. -/
def isToolUseB (item : Json) : Bool := decide (itemTypeStr item = some "tool_use")

/-- The code-side per-item memory-write condition, read off the scan loop:
a tool-use item whose defaulted tool name is Edit/Write and whose defaulted
`input.file_path` contains a memory-path marker. -/
def memItemB (item : Json) : Bool :=
  isToolUseB item
    && (decide (toolNameStr item = "Edit") || decide (toolNameStr item = "Write"))
    && MEMORY_PATHS.any (fun p => strContains (filePathStr item) p)

/-- Spec wording for a memory write: a content item with type `"tool_use"`,
tool name `"Edit"` or `"Write"`, and an `input.file_path` string containing
`"Memory/Learnings/"` or `"Memory/Decisions/"` as a substring. -/
def spec_memory_write_item (item : Json) : Bool :=
  decide (itemTypeStr item = some "tool_use")
    && (match (item.get "name").bind Json.asStr with
        | some s => decide (s = "Edit") || decide (s = "Write")
        | none => false)
    && (match ((item.get "input").bind (fun i => i.get "file_path")).bind Json.asStr with
        | some s => strContains s "Memory/Learnings/" || strContains s "Memory/Decisions/"
        | none => false)

/-- Spec wording: a successfully parsed assistant entry containing a
memory-write content item. -/
def spec_memory_write_line (e : Option Json) : Bool :=
  match e with
  | some v =>
    decide (entryTypeStr v = "assistant")
      && (match contentArr v with
          | some items => items.any spec_memory_write_item
          | none => false)
  | none => false

/-- Spec wording: a successfully parsed assistant entry containing at least
one tool-use content item (a "tool-using turn"). -/
def spec_tool_use_line (e : Option Json) : Bool :=
  match e with
  | some v =>
    decide (entryTypeStr v = "assistant")
      && (match contentArr v with
          | some items => items.any isToolUseB
          | none => false)
  | none => false

/-- Spec wording: a line that parses as JSON and whose `type` field is the
string `"human"`. -/
def is_human_line (e : Option Json) : Bool :=
  match e with
  | some v => decide (entryTypeStr v = "human")
  | none => false

/-- Does the payload object carry field `k` (with any value)? -/
def hasField (j : Json) (k : String) : Bool := (j.get k).isSome

/-- Does some line of the text start with the H1 marker? -/
def hasH1Line (x : String) : Bool := (rustLines x).any (fun l => rStarts l "# ")

/-- Is the first line (if any) the frontmatter delimiter? -/
def firstLineIsFm (x : String) : Bool :=
  match rustLines x with
  | [] => false
  | f :: _ => decide (rTrim f = "---")

/-- Does the text contain a carriage return? -/
def hasCR (x : String) : Bool := x.data.any (fun c => c == '\r')

/-! ## Concrete inputs used by witnesses and counterexamples -/

/-- A payload whose `trigger` field is present but `null`. -/
def trigger_null_payload : Json := Json.obj [("trigger", Json.null)]

/-- A compaction payload with `"trigger": "auto"`. -/
def compactPayload : Json :=
  Json.obj [("trigger", Json.str "auto"), ("cwd", Json.str "/h/Data/x")]

/-- The Scenario D prompt file contents. -/
def promptD : String := "---\ntitle: x\n---\n# Reflect\n\nWrite it down.\n"

/-- The Scenario D environment: compaction event inside the scope root,
prompt file present. -/
def envScenarioD : Env :=
  ⟨some compactPayload, some "/h",
   fun p => if p = pattern_path "/h/Data/x" then some promptD else none,
   fun _ => none⟩

/-- A stop payload inside the scope root. -/
def stopPayload : Json :=
  Json.obj [("cwd", Json.str "/h/Data/x"), ("transcript_path", Json.str "t.jsonl")]

/-- Stop event with an empty transcript file. -/
def envStopEmpty : Env :=
  ⟨some stopPayload, some "/h",
   fun p => if p = "t.jsonl" then some "" else none,
   fun _ => none⟩

/-- Environment whose stdin read (or textual JSON parse) failed. -/
def envStdinFail : Env := ⟨none, none, fun _ => none, fun _ => none⟩

/-- Environment whose stdin is JSON but not an object, so the payload
decode fails. -/
def envBadShape : Env := ⟨some (Json.str "x"), none, fun _ => none, fun _ => none⟩

/-- A stop payload with `stop_hook_active: true`. -/
def reentrantPayload : Json :=
  Json.obj [("stop_hook_active", Json.bool true), ("cwd", Json.str "/h/Data/x"),
    ("transcript_path", Json.str "t.jsonl")]

def envReentrant : Env :=
  ⟨some reentrantPayload, some "/h", fun _ => none, fun _ => none⟩

/-- A compaction payload that also has `stop_hook_active: true`. -/
def compactReentrantPayload : Json :=
  Json.obj [("stop_hook_active", Json.bool true), ("trigger", Json.str "manual"),
    ("cwd", Json.str "/h/Data/x")]

def envCompactReentrant : Env :=
  ⟨some compactReentrantPayload, some "/h", fun _ => none, fun _ => none⟩

/-- A stop payload whose cwd is outside the scope root. -/
def outsidePayload : Json := Json.obj [("cwd", Json.str "/tmp/x")]

def envOutside : Env := ⟨some outsidePayload, some "/h", fun _ => none, fun _ => none⟩

/-- A transcript-line parser recognizing one fixed human line, used to
instantiate transcript-level theorems. -/
def parseHumanOnly : String → Option Json :=
  fun s => if s = "h" then some (Json.obj [("type", Json.str "human")]) else none

/-- A parsed human entry. -/
def humanEntry : Json := Json.obj [("type", Json.str "human")]

/-- A prompt file opening a frontmatter block that is never closed. -/
def unclosedFm : String := "---\ntitle: x\nbody that will be swallowed"

/-- Environment for the unclosed-frontmatter compaction scenario. -/
def envUnclosedFm : Env :=
  ⟨some compactPayload, some "/h",
   fun p => if p = pattern_path "/h/Data/x" then some unclosedFm else none,
   fun _ => none⟩

/-! ## Lemmas about the string primitives -/

theorem splitNl_cons_nl (cs : List Char) : splitNl ('\n' :: cs) = [] :: splitNl cs := by
  simp [splitNl]

theorem splitNl_cons_other (c : Char) (cs : List Char) (h : ¬ c = '\n') :
    splitNl (c :: cs) =
      (match splitNl cs with
       | [] => [[c]]
       | f :: rest => (c :: f) :: rest) := by
  simp [splitNl, h]

theorem splitNl_ne_nil (l : List Char) : splitNl l ≠ [] := by
  cases l with
  | nil => simp [splitNl]
  | cons c cs =>
    simp only [splitNl]
    split
    · simp
    · split <;> simp

theorem joinNl_splitNl (l : List Char) : joinNl (splitNl l) = l := by
  induction l with
  | nil => rfl
  | cons c cs ih =>
    by_cases h : c = '\n'
    · subst h
      simp only [splitNl, if_pos rfl]
      cases hs : splitNl cs with
      | nil => exact absurd hs (splitNl_ne_nil cs)
      | cons f rest =>
        rw [hs] at ih
        show joinNl ([] :: f :: rest) = '\n' :: cs
        show [] ++ '\n' :: joinNl (f :: rest) = '\n' :: cs
        rw [List.nil_append, ih]
    · simp only [splitNl, if_neg h]
      cases hs : splitNl cs with
      | nil => exact absurd hs (splitNl_ne_nil cs)
      | cons f rest =>
        rw [hs] at ih
        cases rest with
        | nil =>
          show (c :: f) = c :: cs
          rw [show joinNl [f] = f from rfl] at ih
          rw [ih]
        | cons g gs =>
          show (c :: f) ++ '\n' :: joinNl (g :: gs) = c :: cs
          rw [List.cons_append]
          rw [show f ++ '\n' :: joinNl (g :: gs) = joinNl (f :: g :: gs) from rfl, ih]

theorem mem_of_mem_splitNl : ∀ (l f : List Char), f ∈ splitNl l → ∀ c ∈ f, c ∈ l := by
  intro l
  induction l with
  | nil =>
    intro f hf c hc
    simp only [splitNl, List.mem_singleton] at hf
    subst hf
    exact absurd hc (List.not_mem_nil c)
  | cons a as ih =>
    intro f hf c hc
    by_cases h : a = '\n'
    · subst h
      rw [splitNl_cons_nl, List.mem_cons] at hf
      cases hf with
      | inl hf => rw [hf] at hc; exact absurd hc (List.not_mem_nil c)
      | inr hf => exact List.mem_cons_of_mem _ (ih f hf c hc)
    · rw [splitNl_cons_other a as h] at hf
      cases hs : splitNl as with
      | nil => exact absurd hs (splitNl_ne_nil as)
      | cons g rest =>
        rw [hs, List.mem_cons] at hf
        cases hf with
        | inl hf =>
          rw [hf] at hc
          cases List.mem_cons.mp hc with
          | inl hca => rw [hca]; exact List.mem_cons_self a as
          | inr hcg =>
            refine List.mem_cons_of_mem _ (ih g ?_ c hcg)
            rw [hs]; exact List.mem_cons_self g rest
        | inr hf =>
          refine List.mem_cons_of_mem _ (ih f ?_ c hc)
          rw [hs]; exact List.mem_cons_of_mem _ hf

theorem dropCr_of_no_cr (l : List Char) (h : '\r' ∉ l) : dropCr l = l := by
  unfold dropCr
  cases hr : l.reverse with
  | nil => rfl
  | cons c rest =>
    have hc : c ∈ l := by
      have : c ∈ l.reverse := by rw [hr]; exact List.mem_cons_self c rest
      exact List.mem_reverse.mp this
    have : ¬ c = '\r' := fun he => h (he ▸ hc)
    show (if c = '\r' then rest.reverse else l) = l
    rw [if_neg this]

theorem trimChars_append_nl (m : List Char) :
    trimChars (m ++ ['\n']) = trimChars m := by
  have h : wsChar '\n' = true := by decide
  unfold trimChars
  rw [List.reverse_append, List.reverse_singleton, List.singleton_append,
    List.dropWhile_cons, h]
  simp

theorem joinNl_finishLines (fs : List (List Char)) (h : ∀ f ∈ fs, '\r' ∉ f) :
    joinNl (finishLines fs) = joinNl fs
    ∨ joinNl fs = joinNl (finishLines fs) ++ ['\n'] := by
  induction fs with
  | nil => exact Or.inl rfl
  | cons l rest ih =>
    cases rest with
    | nil =>
      by_cases hl : l = []
      · subst hl; exact Or.inl rfl
      · left
        show joinNl (if l = [] then [] else [l]) = joinNl [l]
        rw [if_neg hl]
    | cons l2 rest2 =>
      have hdc : dropCr l = l := dropCr_of_no_cr l (h l (List.mem_cons_self _ _))
      have hrest : ∀ f ∈ l2 :: rest2, '\r' ∉ f :=
        fun f hf => h f (List.mem_cons_of_mem _ hf)
      have ih2 := ih hrest
      have hstep : finishLines (l :: l2 :: rest2) = dropCr l :: finishLines (l2 :: rest2) :=
        rfl
      rw [hstep, hdc]
      cases hfin : finishLines (l2 :: rest2) with
      | nil =>
        rw [hfin] at ih2
        -- the tail flattened to nothing: it must have been the single empty
        -- final field, i.e. the text ended with its last newline
        cases rest2 with
        | nil =>
          by_cases hl2 : l2 = []
          · subst hl2
            right
            rfl
          · exact absurd hfin (by simp [finishLines, hl2])
        | cons l3 rest3 =>
          exact absurd hfin (by simp [finishLines])
      | cons m ms =>
        rw [hfin] at ih2
        rcases ih2 with heq | heq
        · left
          show l ++ '\n' :: joinNl (m :: ms) = l ++ '\n' :: joinNl (l2 :: rest2)
          rw [heq]
        · right
          show l ++ '\n' :: joinNl (l2 :: rest2) = (l ++ '\n' :: joinNl (m :: ms)) ++ ['\n']
          rw [heq]
          simp

theorem trimChars_finishLines (l : List Char) (h : '\r' ∉ l) :
    trimChars (joinNl (finishLines (splitNl l))) = trimChars l := by
  have hf : ∀ f ∈ splitNl l, '\r' ∉ f := by
    intro f hfm hcr
    exact h (mem_of_mem_splitNl l f hfm '\r' hcr)
  rcases joinNl_finishLines (splitNl l) hf with heq | heq
  · rw [heq, joinNl_splitNl]
  · rw [joinNl_splitNl] at heq
    conv_rhs => rw [heq]
    rw [trimChars_append_nl]

example : rustLines "a\r\nb\n\nc" = ["a", "b", "", "c"] := by decide
example : rustLines "" = [] := by decide
example : rustLines "x\n" = ["x"] := by decide
example : strip_frontmatter_and_h1 "---\ntitle: Test\n---\n# My Title\n\nBody text here.\n" = "\nBody text here." := by decide
example : strip_frontmatter_and_h1 "# My Title\n\nBody text here.\n" = "\nBody text here." := by decide
example : strip_frontmatter_and_h1 "Just body text.\n" = "Just body text." := by decide
example : rTrim "  x\n" = "x" := by decide
example : strContains "a/Memory/Learnings/x.md" "Memory/Learnings/" = true := by decide
example : strContains "q" "Memory/Learnings/" = false := by decide

/-! ## Lemmas about the sanitizer -/

theorem stripLoop_fm_unclosed : ∀ (ls : List String) (h1 : Bool) (acc : List String),
    (∀ l ∈ ls, rTrim l ≠ "---") → stripLoop ls true false h1 acc = acc.reverse := by
  intro ls
  induction ls with
  | nil => intro h1 acc h; rfl
  | cons line rest ih =>
    intro h1 acc h
    have hne : ¬ rTrim line = "---" := h line (List.mem_cons_self _ _)
    show (if rTrim line = "---" then stripLoop rest false true h1 acc
          else stripLoop rest true false h1 acc) = acc.reverse
    rw [if_neg hne]
    exact ih h1 acc (fun l hl => h l (List.mem_cons_of_mem _ hl))

theorem stripLoop_no_h1 : ∀ (ls : List String) (fmDone h1 : Bool) (acc : List String),
    (∀ l ∈ ls, rStarts l "# " = false) →
    stripLoop ls false fmDone h1 acc = acc.reverse ++ ls := by
  intro ls
  induction ls with
  | nil => intro fmDone h1 acc h; simp [stripLoop]
  | cons line rest ih =>
    intro fmDone h1 acc h
    have hns : rStarts line "# " = false := h line (List.mem_cons_self _ _)
    have hcond : (fmDone && !h1 && rStarts line "# ") = false := by
      rw [hns, Bool.and_false]
    show (if (fmDone && !h1 && rStarts line "# ") = true
          then stripLoop rest false fmDone true acc
          else stripLoop rest false fmDone h1 (line :: acc)) = acc.reverse ++ line :: rest
    rw [if_neg (by simp [hcond])]
    rw [ih fmDone h1 (line :: acc) (fun l hl => h l (List.mem_cons_of_mem _ hl))]
    simp

theorem rustLines_map_data (s : String) :
    (rustLines s).map String.data = finishLines (splitNl s.data) := by
  unfold rustLines
  rw [List.map_map]
  have h : (String.data ∘ String.mk) = id := rfl
  rw [h, List.map_id]

/-! ## Lemmas about the transcript analyzer -/

theorem any_congr_ptwise {α : Type} (L : List α) (f g : α → Bool)
    (h : ∀ a, f a = g a) : L.any f = L.any g := by
  induction L with
  | nil => rfl
  | cons a t ih => simp only [List.any_cons, h a, ih]

theorem any_false_of_le {α : Type} (L : List α) (f g : α → Bool)
    (himp : ∀ a, f a = true → g a = true) (hg : L.any g = false) : L.any f = false := by
  cases hfa : L.any f with
  | false => rfl
  | true =>
    obtain ⟨x, hx, hfx⟩ := List.any_eq_true.mp hfa
    have hgx : L.any g = true := List.any_eq_true.mpr ⟨x, hx, himp x hfx⟩
    rw [hg] at hgx
    exact absurd hgx (by simp)

theorem scanItems_eq : ∀ (items : List Json) (tu mw : Bool),
    scanItems items tu mw = (tu || items.any isToolUseB, mw || items.any memItemB) := by
  intro items
  induction items with
  | nil => intro tu mw; simp [scanItems]
  | cons item rest ih =>
    intro tu mw
    cases hit : itemTypeStr item with
    | none =>
      have h1 : isToolUseB item = false := by simp [isToolUseB, hit]
      have h2 : memItemB item = false := by simp [memItemB, h1]
      simp only [scanItems, hit]
      rw [ih]
      simp [List.any_cons, h1, h2]
    | some t =>
      by_cases ht : t = "tool_use"
      · subst ht
        have h1 : isToolUseB item = true := by simp [isToolUseB, hit]
        simp only [scanItems, hit]
        rw [if_neg (by simp)]
        by_cases hn : toolNameStr item ≠ "Edit" ∧ toolNameStr item ≠ "Write"
        · have h2 : memItemB item = false := by simp [memItemB, hn.1, hn.2]
          rw [if_pos hn, ih]
          simp [List.any_cons, h1, h2]
        · have hew : toolNameStr item = "Edit" ∨ toolNameStr item = "Write" := by
            rcases not_and_or.mp hn with h | h
            · exact Or.inl (not_not.mp h)
            · exact Or.inr (not_not.mp h)
          have h2 : memItemB item
              = MEMORY_PATHS.any (fun p => strContains (filePathStr item) p) := by
            rcases hew with h | h <;> simp [memItemB, h1, h]
          rw [if_neg hn, ih]
          simp [List.any_cons, h1, h2, Bool.or_assoc]
      · have h1 : isToolUseB item = false := by simp [isToolUseB, hit, ht]
        have h2 : memItemB item = false := by simp [memItemB, h1]
        simp only [scanItems, hit]
        rw [if_pos ht, ih]
        simp [List.any_cons, h1, h2]

theorem name_part_eq (o : Option String) :
    (decide (o.getD "" = "Edit") || decide (o.getD "" = "Write"))
      = (match o with
         | some s => decide (s = "Edit") || decide (s = "Write")
         | none => false) := by
  cases o with
  | none => decide
  | some s => rfl

theorem path_part_eq (o : Option String) :
    MEMORY_PATHS.any (fun p => strContains (o.getD "") p)
      = (match o with
         | some s => strContains s "Memory/Learnings/" || strContains s "Memory/Decisions/"
         | none => false) := by
  cases o with
  | none => decide
  | some s => simp [MEMORY_PATHS, List.any_cons, List.any_nil]

theorem memItemB_eq_spec (item : Json) : memItemB item = spec_memory_write_item item := by
  unfold memItemB spec_memory_write_item isToolUseB toolNameStr filePathStr
  rw [name_part_eq, path_part_eq]

theorem memItemB_le_toolUse (a : Json) (h : memItemB a = true) : isToolUseB a = true := by
  unfold memItemB at h
  simp only [Bool.and_eq_true] at h
  exact h.1.1

theorem analyzeLoop_acc : ∀ (es : List (Option Json)) (u t : Nat) (m : Bool),
    analyzeLoop es u t m =
      ⟨u + (analyzeLoop es 0 0 false).user_messages,
       t + (analyzeLoop es 0 0 false).tool_using_turns,
       m || (analyzeLoop es 0 0 false).has_memory_write⟩ := by
  intro es
  induction es with
  | nil => intro u t m; simp [analyzeLoop]
  | cons e rest ih =>
    intro u t m
    cases e with
    | none =>
      simp only [analyzeLoop]
      exact ih u t m
    | some entry =>
      by_cases hh : entryTypeStr entry = "human"
      · simp only [analyzeLoop, if_pos hh]
        rw [ih (u + 1) t m, ih 1 0 false]
        simp only [AnalysisResult.mk.injEq]
        refine ⟨by omega, by omega, by simp⟩
      · by_cases ha : entryTypeStr entry = "assistant"
        · cases hca : contentArr entry with
          | none =>
            simp only [analyzeLoop, if_neg hh, if_neg (not_not_intro ha), hca]
            exact ih u t m
          | some items =>
            simp only [analyzeLoop, if_neg hh, if_neg (not_not_intro ha), hca,
              scanItems_eq, Bool.false_or]
            by_cases hA : items.any isToolUseB = true
            · simp only [hA, if_pos rfl, if_true]
              rw [ih u (t + 1) (m || items.any memItemB),
                ih 0 1 (items.any memItemB)]
              simp only [AnalysisResult.mk.injEq]
              refine ⟨by omega, by omega, by simp [Bool.or_assoc]⟩
            · simp only [Bool.not_eq_true] at hA
              simp only [hA, if_false, Bool.false_eq_true]
              rw [ih u t (m || items.any memItemB), ih 0 0 (items.any memItemB)]
              simp only [AnalysisResult.mk.injEq]
              refine ⟨by omega, by omega, by simp [Bool.or_assoc]⟩
        · simp only [analyzeLoop, if_neg hh, if_pos ha]
          exact ih u t m

theorem analyzeLoop_spec : ∀ es : List (Option Json),
    analyzeLoop es 0 0 false =
      ⟨es.countP is_human_line, es.countP spec_tool_use_line,
       es.any spec_memory_write_line⟩ := by
  intro es
  induction es with
  | nil => rfl
  | cons e rest ih =>
    cases e with
    | none =>
      simp only [analyzeLoop]
      rw [ih]
      simp [is_human_line, spec_tool_use_line, spec_memory_write_line,
        List.countP_cons, List.any_cons]
    | some entry =>
      by_cases hh : entryTypeStr entry = "human"
      · have hd : decide (entryTypeStr entry = "human") = true := by rw [hh]; rfl
        have hda : decide (entryTypeStr entry = "assistant") = false := by rw [hh]; rfl
        simp only [analyzeLoop, if_pos hh]
        rw [analyzeLoop_acc rest 1 0 false, ih]
        simp only [List.countP_cons, List.any_cons, is_human_line, spec_tool_use_line,
          spec_memory_write_line, hd, hda, Bool.false_and, AnalysisResult.mk.injEq]
        refine ⟨by simp; omega, by simp, by simp⟩
      · by_cases ha : entryTypeStr entry = "assistant"
        · have hda : decide (entryTypeStr entry = "assistant") = true := by rw [ha]; rfl
          have hdh : decide (entryTypeStr entry = "human") = false := by rw [ha]; rfl
          cases hca : contentArr entry with
          | none =>
            simp only [analyzeLoop, if_neg hh, if_neg (not_not_intro ha), hca]
            rw [ih]
            simp [List.countP_cons, List.any_cons, is_human_line, spec_tool_use_line,
              spec_memory_write_line, hdh, hda, hca]
          | some items =>
            have hmem : items.any spec_memory_write_item = items.any memItemB :=
              (any_congr_ptwise items memItemB spec_memory_write_item memItemB_eq_spec).symm
            simp only [analyzeLoop, if_neg hh, if_neg (not_not_intro ha), hca,
              scanItems_eq, Bool.false_or]
            by_cases hA : items.any isToolUseB = true
            · simp only [hA, if_true]
              rw [analyzeLoop_acc rest 0 1 (items.any memItemB), ih]
              simp only [List.countP_cons, List.any_cons, is_human_line,
                spec_tool_use_line, spec_memory_write_line, hdh, hda, hca, hA, hmem,
                Bool.true_and, AnalysisResult.mk.injEq]
              refine ⟨by simp, by simp; omega, by simp⟩
            · have hA2 : items.any isToolUseB = false := by
                simp only [Bool.not_eq_true] at hA; exact hA
              have hM : items.any memItemB = false :=
                any_false_of_le items memItemB isToolUseB memItemB_le_toolUse hA2
              simp only [hA2, Bool.false_eq_true, if_false, hM]
              rw [ih]
              simp [List.countP_cons, List.any_cons, is_human_line, spec_tool_use_line,
                spec_memory_write_line, hdh, hda, hca, hA2, hmem, hM]
        · have hdh : decide (entryTypeStr entry = "human") = false := by simp [hh]
          have hda : decide (entryTypeStr entry = "assistant") = false := by simp [ha]
          simp only [analyzeLoop, if_neg hh, if_pos ha]
          rw [ih]
          simp [List.countP_cons, List.any_cons, is_human_line, spec_tool_use_line,
            spec_memory_write_line, hdh, hda]

/-! ## Lemmas about the main pipeline -/

theorem runHook_eq (env : Env) (j : Json) (input : HookInput)
    (hj : env.stdin = some j) (hp : parseHookInput j = some input) :
    runHook env =
      (if !(is_pre_compact input) && input.stop_hook_active then ⟨Output.silent, 0⟩
       else if !(scope_passes env.home input.cwd) then ⟨Output.silent, 0⟩
       else if is_pre_compact input then
         ⟨Output.inject (PRECOMPACT_HEADER ++
           ((load_reflection_prompt env.files input.cwd).getD FALLBACK_REASON)), 0⟩
       else
         match env.files input.transcript_path with
         | none => ⟨Output.silent, 0⟩
         | some transcript =>
           ⟨stop_decision env.files input.cwd
             (analyze_transcript env.parseJson transcript), 0⟩) := by
  unfold runHook
  simp only [hj, hp]

theorem runHook_exit (env : Env) : (runHook env).exit = 0 := by
  unfold runHook
  (repeat' split) <;> rfl

/-! ## Claim theorems -/

/-- C1: on the stop path (stop event, reentrancy guard and scope guard
passed, transcript read), the decision is computed in this exact order:
below either threshold means Allow (silent); otherwise an observed memory
write means Allow; otherwise Block with the loaded prompt, or the fixed
fallback sentence when no prompt is available. -/
theorem C1_stop_decision_order (env : Env) (j : Json) (input : HookInput)
    (hj : env.stdin = some j) (hp : parseHookInput j = some input)
    (htr : input.trigger = none) (hsha : input.stop_hook_active = false)
    (hcwd : scope_passes env.home input.cwd = true)
    (t : String) (ht : env.files input.transcript_path = some t) :
    ((analyze_transcript env.parseJson t).user_messages < USER_MSG_THRESHOLD
        ∨ (analyze_transcript env.parseJson t).tool_using_turns < TOOL_TURN_THRESHOLD →
      (runHook env).out = Output.silent)
    ∧ (¬((analyze_transcript env.parseJson t).user_messages < USER_MSG_THRESHOLD
        ∨ (analyze_transcript env.parseJson t).tool_using_turns < TOOL_TURN_THRESHOLD) →
      (analyze_transcript env.parseJson t).has_memory_write = true →
      (runHook env).out = Output.silent)
    ∧ (¬((analyze_transcript env.parseJson t).user_messages < USER_MSG_THRESHOLD
        ∨ (analyze_transcript env.parseJson t).tool_using_turns < TOOL_TURN_THRESHOLD) →
      (analyze_transcript env.parseJson t).has_memory_write = false →
      (runHook env).out =
        Output.block ((load_reflection_prompt env.files input.cwd).getD FALLBACK_REASON)) := by
  have hpc : is_pre_compact input = false := by simp [is_pre_compact, htr]
  have hrun : (runHook env).out
      = stop_decision env.files input.cwd (analyze_transcript env.parseJson t) := by
    rw [runHook_eq env j input hj hp]
    simp [hpc, hsha, hcwd, ht]
  refine ⟨?_, ?_, ?_⟩
  · intro hlt
    rw [hrun]
    unfold stop_decision
    rw [if_pos hlt]
  · intro hge hm
    rw [hrun]
    unfold stop_decision
    rw [if_neg hge, if_pos hm]
  · intro hge hm
    rw [hrun]
    unfold stop_decision
    rw [if_neg hge, if_neg (by simp [hm])]

/-- C1 witness: a concrete in-scope stop event with an empty transcript
falls under the threshold rule and is silently allowed. -/
theorem C1_witness : (runHook envStopEmpty).out = Output.silent :=
  (C1_stop_decision_order envStopEmpty stopPayload ⟨false, "/h/Data/x", "t.jsonl", none⟩
    rfl rfl rfl rfl (by decide) "" rfl).1 (by decide)

/-- C2: for every transcript, `has_memory_write` is true iff some parsed
assistant entry has a tool-use content item named Edit or Write whose
`input.file_path` string contains a memory-path marker, and the
tool-using-turn count counts exactly the assistant entries containing at
least one tool-use item of any name. -/
theorem C2_memory_write_iff (parseJson : String → Option Json) (transcript : String) :
    ((analyze_transcript parseJson transcript).has_memory_write = true
      ↔ ∃ e ∈ (rustLines transcript).map parseJson, spec_memory_write_line e = true)
    ∧ (analyze_transcript parseJson transcript).tool_using_turns
        = ((rustLines transcript).map parseJson).countP spec_tool_use_line := by
  unfold analyze_transcript
  rw [analyzeLoop_spec]
  exact ⟨List.any_eq_true, rfl⟩

/-- C5: for every transcript, `user_messages` counts exactly the lines
that parse as JSON with `type` equal to `"human"`, and a human entry
contributes nothing to the tool-use or memory-write signals (it is never
inspected for tool use). -/
theorem C5_user_message_count (parseJson : String → Option Json) (transcript : String) :
    (analyze_transcript parseJson transcript).user_messages
      = ((rustLines transcript).map parseJson).countP is_human_line
    ∧ ∀ (v : Json) (rest : List (Option Json)), entryTypeStr v = "human" →
        (analyzeLoop (some v :: rest) 0 0 false).tool_using_turns
            = (analyzeLoop rest 0 0 false).tool_using_turns
          ∧ (analyzeLoop (some v :: rest) 0 0 false).has_memory_write
            = (analyzeLoop rest 0 0 false).has_memory_write := by
  constructor
  · unfold analyze_transcript
    rw [analyzeLoop_spec]
  · intro v rest hh
    simp only [analyzeLoop, if_pos hh]
    rw [analyzeLoop_acc rest 1 0 false]
    constructor <;> simp

/-- C5 witness: instantiation at a concrete transcript with two parsable
human lines and one unparsable line, and at a concrete human entry. -/
theorem C5_witness :
    (analyze_transcript parseHumanOnly "h\nh\nx").user_messages
        = ((rustLines "h\nh\nx").map parseHumanOnly).countP is_human_line
      ∧ (analyzeLoop [some humanEntry] 0 0 false).tool_using_turns
          = (analyzeLoop [] 0 0 false).tool_using_turns :=
  ⟨(C5_user_message_count parseHumanOnly "h\nh\nx").1,
   ((C5_user_message_count parseHumanOnly "h\nh\nx").2 humanEntry [] rfl).1⟩

theorem parseHookInput_trigger (j : Json) (input : HookInput)
    (hp : parseHookInput j = some input) :
    parseOptStrField j "trigger" = some input.trigger := by
  cases j with
  | null => simp [parseHookInput] at hp
  | bool b => simp [parseHookInput] at hp
  | num n => simp [parseHookInput] at hp
  | str s => simp [parseHookInput] at hp
  | arr items => simp [parseHookInput] at hp
  | obj fields =>
    simp only [parseHookInput] at hp
    cases h1 : parseBoolField (Json.obj fields) "stop_hook_active" with
    | none => rw [h1] at hp; simp at hp
    | some sha =>
      rw [h1] at hp
      cases h2 : parseStrField (Json.obj fields) "cwd" with
      | none => rw [h2] at hp; simp at hp
      | some cwd =>
        rw [h2] at hp
        cases h3 : parseStrField (Json.obj fields) "transcript_path" with
        | none => rw [h3] at hp; simp at hp
        | some tp =>
          rw [h3] at hp
          cases h4 : parseOptStrField (Json.obj fields) "trigger" with
          | none => rw [h4] at hp; simp at hp
          | some tr =>
            rw [h4] at hp
            simp only [Option.some.injEq] at hp
            rw [← hp]

/-- C3 counterexample: the payload whose `trigger` field is present with
value `null` parses successfully, yet is classified as a stop event, so
"classified as compaction exactly when a trigger field is present,
regardless of the field's value" fails at this input. -/
theorem C3_counterexample :
    parseHookInput trigger_null_payload = some ⟨false, "", "", none⟩
      ∧ hasField trigger_null_payload "trigger" = true
      ∧ is_pre_compact ⟨false, "", "", none⟩ = false :=
  ⟨rfl, rfl, rfl⟩

/-- C3 amended: a successfully parsed payload is classified as a
compaction event exactly when its `trigger` field is present with a
string value; an absent or `null` trigger yields a stop event. -/
theorem C3_trigger_amended (j : Json) (input : HookInput)
    (hp : parseHookInput j = some input) :
    is_pre_compact input = true ↔ ∃ s, j.get "trigger" = some (Json.str s) := by
  have htr := parseHookInput_trigger j input hp
  unfold parseOptStrField at htr
  cases hjt : j.get "trigger" with
  | none =>
    rw [hjt] at htr
    simp only [Option.some.injEq] at htr
    simp [is_pre_compact, ← htr]
  | some v =>
    rw [hjt] at htr
    cases v with
    | null =>
      simp only [Option.some.injEq] at htr
      constructor
      · intro hc
        unfold is_pre_compact at hc
        rw [← htr] at hc
        simp at hc
      · rintro ⟨s, hs⟩
        simp only [Option.some.injEq] at hs
        exact absurd hs (by intro h; cases h)
    | str s =>
      simp only [Option.some.injEq] at htr
      constructor
      · intro _
        exact ⟨s, rfl⟩
      · intro _
        unfold is_pre_compact
        rw [← htr]
        rfl
    | bool b => simp at htr
    | num n => simp at htr
    | arr items => simp at htr
    | obj fields => simp at htr

/-- C3 amended witness: a string-valued trigger is classified as
compaction. -/
theorem C3_amended_witness :
    is_pre_compact ⟨false, "", "", some "auto"⟩ = true
      ↔ ∃ s, (Json.obj [("trigger", Json.str "auto")]).get "trigger"
          = some (Json.str s) :=
  C3_trigger_amended (Json.obj [("trigger", Json.str "auto")])
    ⟨false, "", "", some "auto"⟩ rfl

/-- C4: every compaction event that passes the scope guard emits exactly
one InjectContext output, the fixed instructional text directly
concatenated with the loaded prompt (or the fallback sentence), without
consulting the transcript. -/
theorem C4_compaction_inject (env : Env) (j : Json) (input : HookInput)
    (hj : env.stdin = some j) (hp : parseHookInput j = some input)
    (htr : is_pre_compact input = true)
    (hcwd : scope_passes env.home input.cwd = true) :
    (runHook env).out = Output.inject
      (PRECOMPACT_HEADER ++
        ((load_reflection_prompt env.files input.cwd).getD FALLBACK_REASON)) := by
  rw [runHook_eq env j input hj hp]
  simp [htr, hcwd]

/-- C4 witness: the Scenario D input produces exactly the expected
injected text. -/
theorem C4_witness :
    (runHook envScenarioD).out
      = Output.inject
          "BEFORE COMPACTING — capture session learnings and decisions now. Write it down." := by
  have h := C4_compaction_inject envScenarioD compactPayload
    ⟨false, "/h/Data/x", "", some "auto"⟩ rfl rfl rfl (by decide)
  rw [h]
  decide

/-- C7: the process always exits successfully, and a stdin read failure
or a payload that fails to decode produces no output at all. -/
theorem C7_fail_open (env : Env) :
    (runHook env).exit = 0
    ∧ (env.stdin = none → (runHook env).out = Output.silent)
    ∧ (∀ j, env.stdin = some j → parseHookInput j = none →
        (runHook env).out = Output.silent) := by
  refine ⟨runHook_exit env, ?_, ?_⟩
  · intro h
    unfold runHook
    rw [h]
  · intro j hj hp
    unfold runHook
    simp only [hj, hp]

/-- C7 witness: concrete no-input and non-object-input environments are
silent with exit code zero. -/
theorem C7_witness :
    ((runHook envStdinFail).out = Output.silent ∧ (runHook envStdinFail).exit = 0)
      ∧ (runHook envBadShape).out = Output.silent :=
  ⟨⟨(C7_fail_open envStdinFail).2.1 rfl, (C7_fail_open envStdinFail).1⟩,
   (C7_fail_open envBadShape).2.2 (Json.str "x") rfl rfl⟩

/-- C8: a stop event with `stop_hook_active` true emits no output,
whatever the transcript holds; the guard does not apply to compaction
events, which still emit output. -/
theorem C8_reentrancy_guard (env : Env) (j : Json) (input : HookInput)
    (hj : env.stdin = some j) (hp : parseHookInput j = some input)
    (hsha : input.stop_hook_active = true) :
    (input.trigger = none → (runHook env).out = Output.silent)
    ∧ (∀ s, input.trigger = some s → scope_passes env.home input.cwd = true →
        (runHook env).out ≠ Output.silent) := by
  constructor
  · intro htr
    have hpc : is_pre_compact input = false := by simp [is_pre_compact, htr]
    rw [runHook_eq env j input hj hp]
    simp [hpc, hsha]
  · intro s htr hcwd hcontra
    have hpc : is_pre_compact input = true := by simp [is_pre_compact, htr]
    rw [runHook_eq env j input hj hp] at hcontra
    simp [hpc, hcwd] at hcontra

/-- C8 witness: a concrete reentrant stop event is silent, while a
compaction event with the same flag still emits output. -/
theorem C8_witness :
    (runHook envReentrant).out = Output.silent
      ∧ (runHook envCompactReentrant).out ≠ Output.silent :=
  ⟨(C8_reentrancy_guard envReentrant reentrantPayload
      ⟨true, "/h/Data/x", "t.jsonl", none⟩ rfl rfl rfl).1 rfl,
   (C8_reentrancy_guard envCompactReentrant compactReentrantPayload
      ⟨true, "/h/Data/x", "", some "manual"⟩ rfl rfl rfl).2 "manual" rfl (by decide)⟩

/-- C9: the scope guard is a plain string-prefix test on
`HOME ++ "/Data"`: any parsed event whose cwd fails the test is silent,
an unset HOME degrades the required prefix to `"/Data"`, and a cwd such
as `/home/u/Database` passes despite lying outside the Data directory. -/
theorem C9_scope_guard :
    (∀ (env : Env) (j : Json) (input : HookInput),
      env.stdin = some j → parseHookInput j = some input →
      scope_passes env.home input.cwd = false → (runHook env).out = Output.silent)
    ∧ (∀ cwd : String, scope_passes none cwd = rStarts cwd "/Data")
    ∧ scope_passes (some "/home/u") "/home/u/Database" = true := by
  refine ⟨?_, fun cwd => rfl, by decide⟩
  intro env j input hj hp hcwd
  rw [runHook_eq env j input hj hp]
  by_cases hg : (!(is_pre_compact input) && input.stop_hook_active) = true
  · simp [hg]
  · simp only [Bool.not_eq_true] at hg
    simp [hg, hcwd]

/-- C9 witness: a concrete stop event outside the scope root is silent. -/
theorem C9_witness : (runHook envOutside).out = Output.silent :=
  C9_scope_guard.1 envOutside outsidePayload ⟨false, "/tmp/x", "", none⟩
    rfl rfl (by decide)

theorem strip_eq_cons (content f : String) (rest : List String)
    (h : rustLines content = f :: rest) :
    strip_frontmatter_and_h1 content =
      (if rTrim f = "---" then rJoin (stripLoop rest true false false [])
       else if rStarts f "# " then rJoin (stripLoop rest false true true [])
       else rJoin (stripLoop rest false true false [f])) := by
  unfold strip_frontmatter_and_h1
  rw [h]

/-- C6 counterexample: the text joining the lines `x` and `# y` has no
frontmatter and no leading H1, yet sanitization removes the later H1 line,
so the result differs from the input even modulo surrounding-whitespace
trim. -/
theorem C6_counterexample :
    rustLines "x\n# y" = ["x", "# y"]
      ∧ rTrim "x" ≠ "---"
      ∧ rStarts "x" "# " = false
      ∧ strip_frontmatter_and_h1 "x\n# y" = "x"
      ∧ rTrim (strip_frontmatter_and_h1 "x\n# y") ≠ rTrim "x\n# y" := by
  decide

/-- C6 amended: sanitization leaves the text unchanged modulo
surrounding-whitespace trim provided no line at all begins with the H1
marker (not merely the first), the first line is not the frontmatter
delimiter, and the text carries no carriage returns. -/
theorem C6_sanitize_amended (x : String)
    (hh1 : hasH1Line x = false) (hfm : firstLineIsFm x = false)
    (hcr : hasCR x = false) :
    rTrim (strip_frontmatter_and_h1 x) = rTrim x := by
  have hnocr : '\r' ∉ x.data := by
    intro hmem
    have hany : x.data.any (fun c => c == '\r') = true :=
      List.any_eq_true.mpr ⟨'\r', hmem, by simp⟩
    unfold hasCR at hcr
    rw [hcr] at hany
    exact absurd hany (by simp)
  have hlines : ∀ l ∈ rustLines x, rStarts l "# " = false := by
    intro l hl
    cases hb : rStarts l "# " with
    | false => rfl
    | true =>
      have hcontra : hasH1Line x = true := by
        unfold hasH1Line
        exact List.any_eq_true.mpr ⟨l, hl, hb⟩
      rw [hh1] at hcontra
      exact absurd hcontra (by simp)
  cases hrl : rustLines x with
  | nil =>
    have hfin : finishLines (splitNl x.data) = [] := by
      have hmd := rustLines_map_data x
      rw [hrl] at hmd
      exact hmd.symm.trans rfl
    have htx : trimChars x.data = [] := by
      have h2 := trimChars_finishLines x.data hnocr
      rw [hfin] at h2
      exact h2.symm.trans (by rfl)
    unfold strip_frontmatter_and_h1
    rw [hrl]
    show rTrim (rJoin []) = rTrim x
    unfold rTrim
    rw [htx]
    rfl
  | cons f rest =>
    have hffm : ¬ rTrim f = "---" := by
      unfold firstLineIsFm at hfm
      rw [hrl] at hfm
      simp only [decide_eq_false_iff_not] at hfm
      exact hfm
    have hfh1 : rStarts f "# " = false :=
      hlines f (by rw [hrl]; exact List.mem_cons_self f rest)
    have hstrip : strip_frontmatter_and_h1 x = rJoin (f :: rest) := by
      rw [strip_eq_cons x f rest hrl, if_neg hffm, if_neg (by simp [hfh1]),
        stripLoop_no_h1 rest true false [f]
          (fun l hl => hlines l (by rw [hrl]; exact List.mem_cons_of_mem f hl))]
      rfl
    rw [hstrip, ← hrl]
    unfold rTrim
    refine congrArg String.mk ?_
    have hjd : (rJoin (rustLines x)).data = joinNl (finishLines (splitNl x.data)) := by
      unfold rJoin
      rw [rustLines_map_data]
    rw [hjd]
    exact trimChars_finishLines x.data hnocr

/-- C6 amended witness: a concrete two-line text with no H1 and no
frontmatter is unchanged modulo trim. -/
theorem C6_witness :
    rTrim (strip_frontmatter_and_h1 "abc\ndef") = rTrim "abc\ndef" :=
  C6_sanitize_amended "abc\ndef" (by decide) (by decide) (by decide)

/-- C10: a prompt file opening a frontmatter block with no closing
delimiter loses every line to the sanitizer, so the loader reports no
prompt and the decision falls back to the fixed fallback sentence. -/
theorem C10_unclosed_frontmatter (content : String) (f : String)
    (rest : List String)
    (hl : rustLines content = f :: rest)
    (hf : rTrim f = "---")
    (hrest : ∀ l ∈ rest, rTrim l ≠ "---") :
    strip_frontmatter_and_h1 content = ""
    ∧ (∀ (files : String → Option String) (cwd : String),
        files (pattern_path cwd) = some content →
        load_reflection_prompt files cwd = none
        ∧ (load_reflection_prompt files cwd).getD FALLBACK_REASON = FALLBACK_REASON) := by
  have hstrip : strip_frontmatter_and_h1 content = "" := by
    rw [strip_eq_cons content f rest hl, if_pos hf,
      stripLoop_fm_unclosed rest false [] hrest]
    rfl
  refine ⟨hstrip, ?_⟩
  intro files cwd hfile
  have hload : load_reflection_prompt files cwd = none := by
    unfold load_reflection_prompt
    rw [hfile]
    show (let stripped := strip_frontmatter_and_h1 content
          if rTrim stripped = "" then none else some (rTrim stripped)) = none
    rw [hstrip]
    rfl
  exact ⟨hload, by rw [hload]; rfl⟩

/-- C10 witness: a concrete unterminated-frontmatter prompt file yields
an empty sanitized text and no loaded prompt. -/
theorem C10_witness :
    strip_frontmatter_and_h1 unclosedFm = ""
      ∧ load_reflection_prompt envUnclosedFm.files "/h/Data/x" = none := by
  have h := C10_unclosed_frontmatter unclosedFm "---"
    ["title: x", "body that will be swallowed"] (by decide) (by decide) (by decide)
  exact ⟨h.1, (h.2 envUnclosedFm.files "/h/Data/x" rfl).1⟩
